import Mathlib

/-!
Verification of the word-puzzle solver core (`solver.py`).

The development shallowly embeds the pure algorithmic core of
`WordPuzzleSolver`: the swipe synthesizer (`_generate_word_swipes`,
`_calculate_swipe_path`), the detection-strategy fallback chain
(`_detect_letters_opencv`), the near-duplicate collapse of the full-image
scan (`_detect_letters_full_scan`, lines 452-470), and the exception
boundary of `solve_puzzle`.  Image decoding, OpenCV and the OCR engine are
external capabilities: where a claim depends only on the control flow
around them, their outputs appear as explicit parameters.

Letters are `Char`, words are `List Char` (Python builds candidate words by
joining character tuples), pixel coordinates are `Int`, confidences are `Rat`
(the source compares confidences only with `<`, which the rational embedding
of the float values preserves).  The dictionary is its membership test
`List Char → Bool`, the only operation the synthesizer performs on it.
-/

namespace WordPuzzle

/-- One detected letter: the dicts `{'letter', 'x', 'y', 'confidence'}` built
by the detection strategies in `solver.py`. -/
structure LetterObservation where
  letter : Char
  x : Int
  y : Int
  confidence : Rat
deriving DecidableEq

/-- One step of a swipe path: the dicts `{'x', 'y', 'letter'}` appended by
`_calculate_swipe_path` (solver.py line 522). -/
structure PathEntry where
  x : Int
  y : Int
  letter : Char
deriving DecidableEq

/-- One result entry: the dicts `{'word', 'path', 'score'}` appended by
`_generate_word_swipes` (solver.py line 495). -/
structure SwipeCandidate where
  word : List Char
  path : List PathEntry
  score : Nat
deriving DecidableEq

/-- The inner loop of `_calculate_swipe_path` (solver.py lines 518-529): scan
`letters_data`, whose head has index `i`, for the first observation whose
letter equals `c` and whose index is not in `used`; return that index and
observation. -/
def findAvailable (c : Char) :
    List LetterObservation → Nat → List Nat → Option (Nat × LetterObservation)
  | [], _, _ => none
  | o :: rest, i, used =>
    if o.letter = c ∧ i ∉ used then some (i, o)
    else findAvailable c rest (i + 1) used

/-- The outer loop of `_calculate_swipe_path` (solver.py lines 514-535):
walk the word's letters, threading the `used_positions` set, and build the
path.  Each entry is paired with the index of the observation it came from
(the index is what `used_positions` tracks in the source; the returned path
is the second components, see `calculate_swipe_path`). -/
def calcSwipePathAux (letters_data : List LetterObservation) :
    List Char → List Nat → Option (List (Nat × PathEntry))
  | [], _ => some []
  | c :: rest, used =>
    match findAvailable c letters_data 0 used with
    | none => none
    | some (i, o) =>
      match calcSwipePathAux letters_data rest (i :: used) with
      | none => none
      | some p => some ((i, { x := o.x, y := o.y, letter := c }) :: p)

/-- `_calculate_swipe_path` (solver.py lines 511-539): the path for `word`,
or `none` when some letter has no unused matching observation. -/
def calculate_swipe_path (word : List Char)
    (letters_data : List LetterObservation) : Option (List PathEntry) :=
  (calcSwipePathAux letters_data word []).map (List.map Prod.snd)

/-- All ways to select one element of a list, returned together with the
remaining elements in their original order: the selection step of Python's
`itertools.permutations`. -/
def picks {α : Type} : List α → List (α × List α)
  | [] => []
  | x :: xs => (x, xs) :: (picks xs).map (fun p => (p.1, x :: p.2))

/-- `itertools.permutations(l, n)` (solver.py line 489): all ordered
selections of `n` distinct positions of `l`, in the library's enumeration
order (positions are distinct even when the values at them coincide). -/
def permsLen {α : Type} : Nat → List α → List (List α)
  | 0, _ => [[]]
  | n + 1, l => (picks l).flatMap (fun p => (permsLen n p.2).map (fun w => p.1 :: w))

/-- The enumeration loops of `_generate_word_swipes` (solver.py lines
482-490): `available_letters` is the letter of every observation (duplicates
kept), and the candidate words tested against the dictionary are the
permutations of that list of each length in `range(3, min(len + 1, 8))`. -/
def testedCandidates (letters_data : List LetterObservation) : List (List Char) :=
  let available_letters := letters_data.map (fun l => l.letter)
  (List.range' 3 (min (available_letters.length + 1) 8 - 3)).flatMap
    (fun length => permsLen length available_letters)

/-- The sort of `_generate_word_swipes` (solver.py line 502): Python's
stable sort ascending on the key `(-score, -len(word))`.  `candLe a b` holds
when `a`'s key is at most `b`'s key, i.e. `a` may be placed before `b`. -/
def candLe (a b : SwipeCandidate) : Prop :=
  b.score < a.score ∨ (a.score = b.score ∧ b.word.length ≤ a.word.length)

instance instDecCandLe : DecidableRel candLe := fun a b =>
  inferInstanceAs
    (Decidable (b.score < a.score ∨ (a.score = b.score ∧ b.word.length ≤ a.word.length)))

instance instTotalCandLe : IsTotal SwipeCandidate candLe :=
  ⟨fun a b => by unfold candLe; omega⟩

instance instTransCandLe : IsTrans SwipeCandidate candLe :=
  ⟨fun a b c h1 h2 => by unfold candLe at h1 h2 ⊢; omega⟩

/-- `_generate_word_swipes` (solver.py lines 476-509): test every candidate
word against the dictionary, realize a path for the hits, score each hit
`len(word) * 10`, sort stably by `(-score, -len(word))` and return the first
20.  Python's `list.sort` is a stable sort; it is modelled by Mathlib's
stable `List.insertionSort` under the same key order. -/
def generate_word_swipes (dict : List Char → Bool)
    (letters_data : List LetterObservation) : List SwipeCandidate :=
  if letters_data.isEmpty then []
  else
    (List.insertionSort candLe
      ((testedCandidates letters_data).filterMap (fun word =>
        if dict word then
          (calculate_swipe_path word letters_data).map
            (fun path => { word := word, path := path, score := word.length * 10 })
        else none))).take 20

/-- The strategy fallback chain of `_detect_letters_opencv` (solver.py lines
128-150), with the outputs of the four OpenCV/OCR strategies (circular
wheel, grid layout, general fallback, full-image scan) abstracted as
parameters: each guard is Python's `if letters and len(letters) >= 3`. -/
def detect_letters_opencv (s1 s2 s3 s4 : List LetterObservation) :
    List LetterObservation :=
  if s1 ≠ [] ∧ 3 ≤ s1.length then s1
  else if s2 ≠ [] ∧ 3 ≤ s2.length then s2
  else if s3 ≠ [] ∧ 3 ≤ s3.length then s3
  else s4

/-- The JSON result shape of `solve_puzzle`: an object with a `swipes` list. -/
structure SolveResult where
  swipes : List SwipeCandidate
deriving DecidableEq

/-- `solve_puzzle` (solver.py lines 89-103), with the two stages abstracted
as possibly-raising computations (`Except.error` models a raised exception),
because the claim quantifies over arbitrary internal failures of detection
or synthesis.  The `try` block evaluates detection, takes the early return
on an empty observation list, then evaluates synthesis; the `except` arm
turns any raise into `{"swipes": []}`. -/
def solve_puzzle (detect : Except String (List LetterObservation))
    (generate : List LetterObservation → Except String (List SwipeCandidate)) :
    SolveResult :=
  match detect with
  | Except.error _ => { swipes := [] }
  | Except.ok letters_data =>
    if letters_data.isEmpty then { swipes := [] }
    else
      match generate letters_data with
      | Except.error _ => { swipes := [] }
      | Except.ok swipes => { swipes := swipes }

/-- The near-duplicate test of `_detect_letters_full_scan` (solver.py lines
457-459): same letter and both coordinates within 30 pixels. -/
def isDuplicate (a b : LetterObservation) : Bool :=
  decide (a.letter = b.letter) &&
    decide ((a.x - b.x).natAbs < 30) && decide ((a.y - b.y).natAbs < 30)

/-- The inner scan of the de-duplication loop (solver.py lines 455-465): the
first retained observation that `l` duplicates, if any. -/
def findDuplicate (l : LetterObservation) :
    List LetterObservation → Option LetterObservation
  | [] => none
  | existing :: rest =>
    if isDuplicate l existing then some existing else findDuplicate l rest

/-- One iteration of the de-duplication loop of `_detect_letters_full_scan`
(solver.py lines 454-468): if `l` duplicates a retained observation and has
strictly higher confidence, that first match is removed and `l` appended;
if it duplicates one without higher confidence, `l` is dropped; otherwise
`l` is appended. -/
def dedupInsert (unique_letters : List LetterObservation)
    (l : LetterObservation) : List LetterObservation :=
  match findDuplicate l unique_letters with
  | some existing =>
    if existing.confidence < l.confidence then
      (unique_letters.erase existing) ++ [l]
    else unique_letters
  | none => unique_letters ++ [l]

/-- The whole de-duplication pass of `_detect_letters_full_scan` (solver.py
lines 452-470) over the pooled raw observations. -/
def removeDuplicates (all_letters : List LetterObservation) :
    List LetterObservation :=
  all_letters.foldl dedupInsert []

/-- Modelled from the spec, for comparison with `testedCandidates`: the
candidate set as the specification's words describe it — permutations
without repetition of the DISTINCT letters present, taken `L` at a time for
every `L` from 3 up to `min(8, number of distinct letters)` inclusive. -/
def specCandidates (letters_data : List LetterObservation) : List (List Char) :=
  let distinct := (letters_data.map (fun l => l.letter)).dedup
  (List.range' 3 (min 8 distinct.length + 1 - 3)).flatMap
    (fun length => permsLen length distinct)

/-- The observation list of spec Scenario 3: A@(0,0), A@(5,5), T@(10,0),
P@(15,0). -/
def obsScenario3 : List LetterObservation :=
  [⟨'A', 0, 0, 1⟩, ⟨'A', 5, 5, 1⟩, ⟨'T', 10, 0, 1⟩, ⟨'P', 15, 0, 1⟩]

/-- The dictionary of spec Scenario 3: the single word "TAP". -/
def dictTAP : List Char → Bool := fun w => w == ['T', 'A', 'P']

/-- The one candidate the solver produces (twice) in Scenario 3: word "TAP",
path T@(10,0), A@(0,0), P@(15,0), score 30. -/
def candTAP : SwipeCandidate :=
  { word := ['T', 'A', 'P'],
    path := [⟨10, 0, 'T'⟩, ⟨0, 0, 'A'⟩, ⟨15, 0, 'P'⟩],
    score := 30 }

/-- Two observations sharing the letter A plus one T: a puzzle whose tested
candidate words are not permutations of the distinct letters. -/
def obsDoubleA : List LetterObservation :=
  [⟨'A', 0, 0, 1⟩, ⟨'A', 5, 5, 1⟩, ⟨'T', 10, 0, 1⟩]

/-- Raw full-scan observations exhibiting a de-duplication chain: A@(0,0)
and A@(58,0) are not duplicates of each other, but A@(29,0) duplicates both
and has the highest confidence.  (Only the order of the confidences matters
to the algorithm, so whole-number rationals stand in for the float values.) -/
def rawChain : List LetterObservation :=
  [⟨'A', 0, 0, 1⟩, ⟨'A', 58, 0, 1⟩, ⟨'A', 29, 0, 2⟩]

/-! ## Helper lemmas -/

/-- A successful `findAvailable` returns an unused index, pointing at an
observation of the list whose letter matches. -/
theorem findAvailable_some {c : Char} :
    ∀ {l : List LetterObservation} {i0 : Nat} {used : List Nat} {i : Nat}
      {o : LetterObservation},
      findAvailable c l i0 used = some (i, o) →
      i ∉ used ∧ o.letter = c ∧ i0 ≤ i ∧ l[i - i0]? = some o := by
  intro l
  induction l with
  | nil => intro i0 used i o h; simp [findAvailable] at h
  | cons o' rest ih =>
    intro i0 used i o h
    rw [findAvailable] at h
    split at h
    · rename_i hcond
      simp only [Option.some.injEq, Prod.mk.injEq] at h
      obtain ⟨rfl, rfl⟩ := h
      exact ⟨hcond.2, hcond.1, Nat.le_refl _, by simp⟩
    · obtain ⟨h1, h2, h3, h4⟩ := ih h
      refine ⟨h1, h2, by omega, ?_⟩
      have hi : i - i0 = (i - (i0 + 1)) + 1 := by omega
      rw [hi, List.getElem?_cons_succ]
      exact h4

/-- A successful `calcSwipePathAux` run produces one entry per letter of the
word, each entry copied from an observation whose index was not yet used,
and no index twice. -/
theorem calcSwipePathAux_spec {letters_data : List LetterObservation} :
    ∀ {w : List Char} {used : List Nat} {p : List (Nat × PathEntry)},
      calcSwipePathAux letters_data w used = some p →
      p.length = w.length ∧
      (∀ pr ∈ p, pr.1 ∉ used ∧ ∃ o, letters_data[pr.1]? = some o ∧
        pr.2.x = o.x ∧ pr.2.y = o.y ∧ pr.2.letter = o.letter) ∧
      (p.map Prod.fst).Nodup := by
  intro w
  induction w with
  | nil =>
    intro used p h
    simp only [calcSwipePathAux, Option.some.injEq] at h
    subst h
    simp
  | cons c rest ih =>
    intro used p h
    rw [calcSwipePathAux] at h
    split at h
    · exact absurd h (by simp)
    · rename_i i o hf
      split at h
      · exact absurd h (by simp)
      · rename_i p' hr
        simp only [Option.some.injEq] at h
        subst h
        obtain ⟨hiu, hol, _, hget⟩ := findAvailable_some hf
        rw [Nat.sub_zero] at hget
        obtain ⟨hlen, hmem, hnodup⟩ := ih hr
        refine ⟨by simp [hlen], ?_, ?_⟩
        · intro pr hpr
          rcases List.mem_cons.mp hpr with rfl | hpr'
          · exact ⟨hiu, o, hget, rfl, rfl, hol.symm ▸ rfl⟩
          · obtain ⟨hpu, ho⟩ := hmem pr hpr'
            exact ⟨fun hin => hpu (List.mem_cons_of_mem _ hin), ho⟩
        · simp only [List.map_cons, List.nodup_cons]
          refine ⟨?_, hnodup⟩
          intro hin
          rw [List.mem_map] at hin
          obtain ⟨pr, hpr, hfst⟩ := hin
          exact (hmem pr hpr).1 (hfst ▸ List.mem_cons_self _ _)

/-- Inversion of `calculate_swipe_path`: a successful path is the
entry-projection of a successful indexed run. -/
theorem calculate_swipe_path_some {word : List Char}
    {letters_data : List LetterObservation} {path : List PathEntry}
    (h : calculate_swipe_path word letters_data = some path) :
    ∃ ps, calcSwipePathAux letters_data word [] = some ps ∧
      path = ps.map Prod.snd := by
  unfold calculate_swipe_path at h
  cases hx : calcSwipePathAux letters_data word [] with
  | none => rw [hx] at h; simp at h
  | some ps =>
    rw [hx] at h
    simp only [Option.map_some', Option.some.injEq] at h
    exact ⟨ps, rfl, h.symm⟩

/-- Inversion of membership in the synthesizer's output: every returned
candidate passed the dictionary test, realized its path, carries the score
`len(word) * 10`, and its word was one of the tested permutations. -/
theorem mem_generate {dict : List Char → Bool}
    {letters_data : List LetterObservation} {c : SwipeCandidate}
    (h : c ∈ generate_word_swipes dict letters_data) :
    dict c.word = true ∧
    calculate_swipe_path c.word letters_data = some c.path ∧
    c.score = c.word.length * 10 ∧
    c.word ∈ testedCandidates letters_data := by
  unfold generate_word_swipes at h
  split at h
  · simp at h
  · have h1 := List.mem_of_mem_take h
    rw [List.mem_insertionSort, List.mem_filterMap] at h1
    obtain ⟨word, hw, hf⟩ := h1
    by_cases hd : dict word = true
    · rw [if_pos hd] at hf
      cases hcp : calculate_swipe_path word letters_data with
      | none => rw [hcp] at hf; simp at hf
      | some path =>
        rw [hcp] at hf
        simp only [Option.map_some', Option.some.injEq] at hf
        subst hf
        exact ⟨hd, hcp, rfl, hw⟩
    · rw [if_neg hd] at hf
      simp at hf

/-- Selecting an element with `picks` splits the list into that element and
a permutation of the rest. -/
theorem picks_perm {α : Type} :
    ∀ {l : List α} {p : α × List α}, p ∈ picks l → List.Perm (p.1 :: p.2) l := by
  intro l
  induction l with
  | nil => intro p h; simp [picks] at h
  | cons x xs ih =>
    intro p h
    rw [picks] at h
    rcases List.mem_cons.mp h with rfl | h'
    · exact List.Perm.refl _
    · rw [List.mem_map] at h'
      obtain ⟨q, hq, rfl⟩ := h'
      exact (List.Perm.swap x q.1 q.2).trans ((ih hq).cons x)

/-- Every member of a list is selected by `picks`, paired with the list
minus that member's first occurrence. -/
theorem picks_mem_erase {α : Type} [DecidableEq α] {x : α} :
    ∀ {l : List α}, x ∈ l → (x, l.erase x) ∈ picks l := by
  intro l
  induction l with
  | nil => intro h; simp at h
  | cons a as ih =>
    intro h
    by_cases hxa : a = x
    · subst hxa
      rw [List.erase_cons_head, picks]
      exact List.mem_cons_self _ _
    · have hx : x ∈ as := by
        rcases List.mem_cons.mp h with rfl | h'
        · exact absurd rfl hxa
        · exact h'
      rw [List.erase_cons_tail (by simp [hxa]), picks]
      refine List.mem_cons_of_mem _ ?_
      rw [List.mem_map]
      exact ⟨(x, as.erase x), ih hx, rfl⟩

/-- `permsLen n l` enumerates exactly the length-`n` lists that use distinct
positions of `l`: the length-`n` subpermutations of `l`. -/
theorem mem_permsLen {α : Type} [DecidableEq α] :
    ∀ {n : Nat} {l w : List α},
      w ∈ permsLen n l ↔ w.length = n ∧ w.Subperm l := by
  intro n
  induction n with
  | zero =>
    intro l w
    constructor
    · intro h
      have hw : w = [] := by simpa [permsLen] using h
      subst hw
      exact ⟨rfl, List.nil_subperm⟩
    · intro ⟨h1, _⟩
      have hw : w = [] := List.length_eq_zero.mp h1
      subst hw
      simp [permsLen]
  | succ n ih =>
    intro l w
    rw [permsLen]
    simp only [List.mem_flatMap, List.mem_map]
    constructor
    · rintro ⟨p, hp, w', hw', rfl⟩
      obtain ⟨hlen, hsub⟩ := ih.mp hw'
      refine ⟨by simp [hlen], ?_⟩
      have h1 : List.Subperm (p.1 :: w') (p.1 :: p.2) :=
        (List.subperm_cons _).mpr hsub
      exact h1.trans (picks_perm hp).subperm
    · rintro ⟨hlen, hsub⟩
      cases w with
      | nil => simp at hlen
      | cons x w' =>
        have hx : x ∈ l := hsub.subset (List.mem_cons_self _ _)
        have h1 : List.Subperm (x :: w') (x :: l.erase x) :=
          hsub.trans (List.perm_cons_erase hx).subperm
        have h2 : List.Subperm w' (l.erase x) := (List.subperm_cons _).mp h1
        have hl' : w'.length = n := by simpa using hlen
        exact ⟨(x, l.erase x), picks_mem_erase hx, w', ih.mpr ⟨hl', h2⟩, rfl⟩

/-- The duplicate test is symmetric. -/
theorem isDuplicate_comm (a b : LetterObservation) :
    isDuplicate a b = isDuplicate b a := by
  unfold isDuplicate
  have hx : (a.x - b.x).natAbs = (b.x - a.x).natAbs := by
    rw [← Int.natAbs_neg, neg_sub]
  have hy : (a.y - b.y).natAbs = (b.y - a.y).natAbs := by
    rw [← Int.natAbs_neg, neg_sub]
  have hl : decide (a.letter = b.letter) = decide (b.letter = a.letter) :=
    decide_eq_decide.mpr ⟨Eq.symm, Eq.symm⟩
  rw [hx, hy, hl]

/-- `findDuplicate` failing means no retained observation is a duplicate of
the incoming one. -/
theorem findDuplicate_none {l : LetterObservation} :
    ∀ {unique : List LetterObservation}, findDuplicate l unique = none →
      ∀ e ∈ unique, isDuplicate l e = false := by
  intro unique
  induction unique with
  | nil => intro _ e he; simp at he
  | cons a as ih =>
    intro h e he
    rw [findDuplicate] at h
    split at h
    · simp at h
    · rename_i hdup
      rcases List.mem_cons.mp he with rfl | he'
      · simpa using hdup
      · exact ih h e he'

/-- `findDuplicate` returns a member of the scanned list. -/
theorem findDuplicate_mem {l e : LetterObservation} :
    ∀ {unique : List LetterObservation},
      findDuplicate l unique = some e → e ∈ unique := by
  intro unique
  induction unique with
  | nil => intro h; simp [findDuplicate] at h
  | cons a as ih =>
    intro h
    rw [findDuplicate] at h
    split at h
    · simp only [Option.some.injEq] at h
      subst h
      exact List.mem_cons_self _ _
    · exact List.mem_cons_of_mem _ (ih h)

/-- Invariant of the de-duplication loop when every observation carries the
same confidence (so the replacement branch never fires): the retained list
stays free of mutual duplicates. -/
theorem foldl_dedup_pairwise {q : Rat} :
    ∀ (raws unique : List LetterObservation),
      (∀ a ∈ raws, a.confidence = q) →
      (∀ a ∈ unique, a.confidence = q) →
      unique.Pairwise (fun a b => isDuplicate a b = false) →
      (raws.foldl dedupInsert unique).Pairwise
        (fun a b => isDuplicate a b = false) := by
  intro raws
  induction raws with
  | nil => intro unique _ _ hp; simpa using hp
  | cons l rest ih =>
    intro unique hr hu hp
    rw [List.foldl_cons]
    have hl : l.confidence = q := hr l (List.mem_cons_self _ _)
    have hrest : ∀ a ∈ rest, a.confidence = q :=
      fun a ha => hr a (List.mem_cons_of_mem _ ha)
    cases hf : findDuplicate l unique with
    | some e =>
      have he : e ∈ unique := findDuplicate_mem hf
      have heq : e.confidence = q := hu e he
      have hstep : dedupInsert unique l = unique := by
        unfold dedupInsert
        rw [hf]
        exact if_neg (by rw [heq, hl]; exact lt_irrefl q)
      rw [hstep]
      exact ih unique hrest hu hp
    | none =>
      have hnd := findDuplicate_none hf
      have hstep : dedupInsert unique l = unique ++ [l] := by
        unfold dedupInsert
        rw [hf]
      rw [hstep]
      apply ih
      · exact hrest
      · intro a ha
        rcases List.mem_append.mp ha with h' | h'
        · exact hu a h'
        · have : a = l := by simpa using h'
          subst this
          exact hl
      · rw [List.pairwise_append]
        refine ⟨hp, by simp, ?_⟩
        intro a ha b hb
        have : b = l := by simpa using hb
        subst this
        rw [isDuplicate_comm]
        exact hnd a ha

/-! ## Claims -/

/-- C1, counterexample: on Scenario 3's input — observations A@(0,0),
A@(5,5), T@(10,0), P@(15,0) and the dictionary containing only "TAP" —
the synthesizer does NOT return exactly one candidate: `itertools.
permutations` treats the two A observations as distinct positions, so the
tuple (T, A, P) arises twice and both copies pass the dictionary test,
giving a result list of length 2. -/
theorem c1_counterexample :
    (generate_word_swipes dictTAP obsScenario3).length = 2 ∧
    ¬ (generate_word_swipes dictTAP obsScenario3).length = 1 := by decide

/-- C1, amended: on Scenario 3's input the synthesizer returns exactly two
candidates, both equal: word "TAP" with path T@(10,0), A@(0,0), P@(15,0)
and score 30.  Each path uses the first A observation (0,0) exactly once
and never the second A observation (5,5), so no candidate uses the same A
position twice. -/
theorem c1_scenario3_two_duplicate_candidates :
    generate_word_swipes dictTAP obsScenario3 = [candTAP, candTAP] ∧
    candTAP.path.count ⟨0, 0, 'A'⟩ = 1 ∧
    candTAP.path.count ⟨5, 5, 'A'⟩ = 0 := by decide

/-- C2, counterexample: for the observations A@(0,0), A@(5,5), T@(10,0) the
code tests the candidate string "AAT" — a permutation of the full
observation letter list, which repeats the letter A — although "AAT" is not
a permutation without repetition of the distinct letters {A, T} of any
length in the claimed range (that set of candidates is empty here, since
only 2 distinct letters are available). -/
theorem c2_counterexample :
    ['A', 'A', 'T'] ∈ testedCandidates obsDoubleA ∧
    ['A', 'A', 'T'] ∉ specCandidates obsDoubleA := by decide

/-- C2, amended: the set of candidate strings tested against the dictionary
is exactly the set of words of length `L` drawn from distinct observation
POSITIONS (i.e. the length-`L` subpermutations of the observation letter
list, duplicates kept), for every `L` from 3 up to `min(n, 7)` where `n` is
the number of observations — `range(3, min(n + 1, 8))` excludes its upper
bound, so length-8 candidates are never enumerated, even with 8 or more
letters available. -/
theorem c2_tested_candidates_characterization
    (letters_data : List LetterObservation) (w : List Char) :
    w ∈ testedCandidates letters_data ↔
      3 ≤ w.length ∧ w.length ≤ min letters_data.length 7 ∧
        w.Subperm (letters_data.map (fun l => l.letter)) := by
  unfold testedCandidates
  simp only [List.mem_flatMap]
  have hml : (letters_data.map (fun l => l.letter)).length =
      letters_data.length := List.length_map _ _
  constructor
  · rintro ⟨L, hL, hw⟩
    obtain ⟨hlen, hsub⟩ := mem_permsLen.mp hw
    obtain ⟨i, hi, rfl⟩ := List.mem_range'.mp hL
    refine ⟨by omega, ?_, hsub⟩
    omega
  · rintro ⟨h3, h7, hsub⟩
    refine ⟨w.length, ?_, mem_permsLen.mpr ⟨rfl, hsub⟩⟩
    rw [List.mem_range']
    exact ⟨w.length - 3, by omega, by omega⟩

/-- C3: `solve_puzzle` never lets an internal exception escape — both a
detection failure and a synthesis failure are converted to the well-formed
empty result — and for every input the returned value has exactly the shape
of an object with a `swipes` list. -/
theorem c3_solve_puzzle_total
    (detect : Except String (List LetterObservation))
    (generate : List LetterObservation → Except String (List SwipeCandidate)) :
    solve_puzzle detect generate =
      { swipes := (solve_puzzle detect generate).swipes } ∧
    (∀ e, detect = Except.error e →
      solve_puzzle detect generate = { swipes := [] }) ∧
    (∀ letters e, detect = Except.ok letters →
      generate letters = Except.error e →
      solve_puzzle detect generate = { swipes := [] }) := by
  refine ⟨rfl, ?_, ?_⟩
  · intro e he
    subst he
    rfl
  · intro letters e h1 h2
    subst h1
    by_cases hemp : letters.isEmpty
    · simp [solve_puzzle, hemp]
    · simp [solve_puzzle, hemp, h2]

/-- C4: every candidate the synthesizer returns has a word accepted by the
dictionary and a path with exactly one entry per letter of the word. -/
theorem c4_word_in_dictionary_path_length
    (dict : List Char → Bool) (letters_data : List LetterObservation)
    (c : SwipeCandidate) (h : c ∈ generate_word_swipes dict letters_data) :
    dict c.word = true ∧ c.path.length = c.word.length := by
  obtain ⟨hd, hcp, _, _⟩ := mem_generate h
  obtain ⟨ps, hps, hpath⟩ := calculate_swipe_path_some hcp
  refine ⟨hd, ?_⟩
  rw [hpath, List.length_map, (calcSwipePathAux_spec hps).1]

theorem c4_witness :
    dictTAP candTAP.word = true ∧
    candTAP.path.length = candTAP.word.length :=
  c4_word_in_dictionary_path_length dictTAP obsScenario3 candTAP (by decide)

/-- C5: every returned candidate's path is drawn from pairwise-distinct
source observations: the path is the projection of an index-annotated path
whose indices are pairwise distinct, each index pointing at an observation
of the input list whose position and letter the entry copies. -/
theorem c5_no_observation_reused
    (dict : List Char → Bool) (letters_data : List LetterObservation)
    (c : SwipeCandidate) (h : c ∈ generate_word_swipes dict letters_data) :
    ∃ ps : List (Nat × PathEntry),
      c.path = ps.map Prod.snd ∧ (ps.map Prod.fst).Nodup ∧
      ∀ pr ∈ ps, ∃ o, letters_data[pr.1]? = some o ∧
        pr.2.x = o.x ∧ pr.2.y = o.y ∧ pr.2.letter = o.letter := by
  obtain ⟨_, hcp, _, _⟩ := mem_generate h
  obtain ⟨ps, hps, hpath⟩ := calculate_swipe_path_some hcp
  obtain ⟨_, hmem, hnodup⟩ := calcSwipePathAux_spec hps
  exact ⟨ps, hpath, hnodup, fun pr hpr => (hmem pr hpr).2⟩

theorem c5_witness :
    ∃ ps : List (Nat × PathEntry),
      candTAP.path = ps.map Prod.snd ∧ (ps.map Prod.fst).Nodup ∧
      ∀ pr ∈ ps, ∃ o, obsScenario3[pr.1]? = some o ∧
        pr.2.x = o.x ∧ pr.2.y = o.y ∧ pr.2.letter = o.letter :=
  c5_no_observation_reused dictTAP obsScenario3 candTAP (by decide)

/-- C6: the returned candidate list is sorted by score descending, and for
any two returned candidates the one with the longer word has the greater or
equal score (the score is 10 times the word length, hence monotone in it). -/
theorem c6_sorted_by_score_monotone_in_length
    (dict : List Char → Bool) (letters_data : List LetterObservation) :
    (generate_word_swipes dict letters_data).Pairwise
      (fun a b => b.score ≤ a.score) ∧
    ∀ a ∈ generate_word_swipes dict letters_data,
      ∀ b ∈ generate_word_swipes dict letters_data,
        b.word.length < a.word.length → b.score ≤ a.score := by
  constructor
  · unfold generate_word_swipes
    split
    · simp
    · apply List.Pairwise.sublist (List.take_sublist _ _)
      apply List.Pairwise.imp ?_ (List.sorted_insertionSort candLe _)
      intro a b hab
      unfold candLe at hab
      omega
  · intro a ha b hb hlen
    have h1 := (mem_generate ha).2.2.1
    have h2 := (mem_generate hb).2.2.1
    omega

/-- C7: the detection pipeline's strategy fallback chain, with the four
strategy outputs abstracted: the first strategy producing at least 3
observations is returned unchanged, a later strategy's output is returned
only when every earlier one produced fewer than 3, and when all of the
first three fall short the full-image scan's output is returned as-is,
however small. -/
theorem c7_strategy_fallback_chain (s1 s2 s3 s4 : List LetterObservation) :
    (3 ≤ s1.length → detect_letters_opencv s1 s2 s3 s4 = s1) ∧
    (s1.length < 3 → 3 ≤ s2.length →
      detect_letters_opencv s1 s2 s3 s4 = s2) ∧
    (s1.length < 3 → s2.length < 3 → 3 ≤ s3.length →
      detect_letters_opencv s1 s2 s3 s4 = s3) ∧
    (s1.length < 3 → s2.length < 3 → s3.length < 3 →
      detect_letters_opencv s1 s2 s3 s4 = s4) := by
  have hne : ∀ (l : List LetterObservation), 3 ≤ l.length → l ≠ [] := by
    intro l h he
    subst he
    simp at h
  have hnot : ∀ (l : List LetterObservation), l.length < 3 →
      ¬(l ≠ [] ∧ 3 ≤ l.length) := by
    intro l h hc
    exact absurd hc.2 (by omega)
  refine ⟨?_, ?_, ?_, ?_⟩
  · intro h1
    unfold detect_letters_opencv
    rw [if_pos ⟨hne s1 h1, h1⟩]
  · intro h1 h2
    unfold detect_letters_opencv
    rw [if_neg (hnot s1 h1), if_pos ⟨hne s2 h2, h2⟩]
  · intro h1 h2 h3
    unfold detect_letters_opencv
    rw [if_neg (hnot s1 h1), if_neg (hnot s2 h2), if_pos ⟨hne s3 h3, h3⟩]
  · intro h1 h2 h3
    unfold detect_letters_opencv
    rw [if_neg (hnot s1 h1), if_neg (hnot s2 h2), if_neg (hnot s3 h3)]

/-- C8, counterexample: the greedy de-duplication can leave two
near-duplicates in its output.  On the raw observations A@(0,0) conf 1,
A@(58,0) conf 1, A@(29,0) conf 2, the third observation duplicates the
first (distance 29 < 30) and replaces it, but the survivor A@(29,0) is a
near-duplicate of the also-retained A@(58,0) (distance 29 < 30): both stay,
and the lower-confidence A@(58,0) is retained although a higher-confidence
near-duplicate of it exists. -/
theorem c8_counterexample :
    removeDuplicates rawChain =
      [⟨'A', 58, 0, 1⟩, ⟨'A', 29, 0, 2⟩] ∧
    isDuplicate ⟨'A', 58, 0, 1⟩ ⟨'A', 29, 0, 2⟩ = true := by decide

/-- C8, amended: when no replacement fires — in particular whenever all raw
observations carry the same confidence — the de-duplicated list contains no
two observations that are near-duplicates of each other.  With unequal
confidences a replacement removes only the first matching retained
observation and can reintroduce a near-duplicate pair, so the invariant
holds only up to replacements. -/
theorem c8_dedup_pairwise_equal_confidence
    (raws : List LetterObservation) (q : Rat)
    (h : ∀ a ∈ raws, a.confidence = q) :
    (removeDuplicates raws).Pairwise
      (fun a b => isDuplicate a b = false) :=
  foldl_dedup_pairwise raws [] h (by simp) (by simp)

theorem c8_witness :
    (removeDuplicates [⟨'A', 0, 0, 1⟩, ⟨'A', 10, 0, 1⟩]).Pairwise
      (fun a b => isDuplicate a b = false) :=
  c8_dedup_pairwise_equal_confidence
    [⟨'A', 0, 0, 1⟩, ⟨'A', 10, 0, 1⟩] 1 (by decide)

/-- C9: the synthesizer is deterministic.  The embedding is a pure function
of the observation list and the dictionary membership test — the source
uses no randomness and no iteration over unordered collections (the Python
set is only queried by membership, `itertools.permutations` enumerates in a
fixed order, and `list.sort` is a deterministic stable sort) — so two
invocations with the same inputs yield the same ordered candidate list,
with the same words, paths, scores and order. -/
theorem c9_deterministic
    (dict : List Char → Bool) (letters_data : List LetterObservation) :
    generate_word_swipes dict letters_data =
      generate_word_swipes dict letters_data := rfl

/-- C10: the synthesizer returns at most 20 candidates, and every returned
candidate's score is 10 times the length of its word. -/
theorem c10_cap_and_score
    (dict : List Char → Bool) (letters_data : List LetterObservation) :
    (generate_word_swipes dict letters_data).length ≤ 20 ∧
    ∀ c ∈ generate_word_swipes dict letters_data,
      c.score = 10 * c.word.length := by
  constructor
  · unfold generate_word_swipes
    split
    · simp
    · exact List.length_take_le _ _
  · intro c hc
    have h1 := (mem_generate hc).2.2.1
    omega

end WordPuzzle
